import Mathlib

/-!
Verification of the duplicacy fork's chunk envelope codec (`Chunk.Encrypt`,
`Chunk.Decrypt`, `Chunk.GetID`, ...) and the SIA storage backend
(`SIAStorage.GetFileInfo`, `SIAStorage.FindChunk`).

Bytes are modelled as `Nat` (values < 256 wherever the code produces bytes;
`^^^` on byte-sized naturals stays byte-sized).  External library primitives
(Argon2, the Threefish-1024 CTR keystream, Skein-MAC-512, zstd,
PBKDF2-HMAC-SHA512, zbase32, the configured keyed hasher) are abstracted as
fields of `CryptoPrims`; the repository composes these primitives and the
theorems quantify over any implementation of them.  CTR mode is modelled
faithfully as XOR with a keystream that depends only on the key material,
the tweak, the IV and the length, which is exactly how
`cipher.NewCTR(...).XORKeyStream` behaves.  Randomness (`rand.Read` of the
32-byte salt) is modelled by passing the salt as an explicit argument.
Library-internal failures (argon2, zstd compression, cipher construction)
are modelled as absent; zstd decompression keeps its failure case because
the code branches on it.
-/

namespace Duplicacy

/-- Abstract interface to the external cryptographic and compression
libraries used by the chunk codec. -/
structure CryptoPrims where
  pbkdf2SHA512 : List Nat → List Nat → Nat → Nat → List Nat
  argon2Hash : List Nat → List Nat → List Nat
  threefishKeystream : List Nat → List Nat → List Nat → Nat → List Nat
  skeinMAC512 : List Nat → List Nat → List Nat
  zstdCompress : Int → List Nat → List Nat
  zstdDecompress : List Nat → Option (List Nat)
  keyedHash : List Nat → List Nat → List Nat
  zbase32Encode : List Nat → String
  hmacSHA256 : List Nat → List Nat → List Nat

/-- threefish.BlockSize1024 -/
def BlockSize1024 : Nat := 128

/-- threefish.TweakSize -/
def TweakSize : Nat := 16

/-- threefish.BlockSize512 -/
def BlockSize512 : Nat := 64

/-- The nine magic bytes "duplicacy". -/
def MAGIC9 : List Nat := [100, 117, 112, 108, 105, 99, 97, 99, 121]

/-- Go constant `ENCRYPTION_HEADER = "duplicacy\000"`: magic word plus a version byte. -/
def ENCRYPTION_HEADER : List Nat := MAGIC9 ++ [0]

/-- Pointwise XOR of two byte lists (`cipher.StreamCipher.XORKeyStream`). -/
def xorBytes (a b : List Nat) : List Nat := List.zipWith (fun x y => x ^^^ y) a b

/-- Go function `threefishCTR(encryptionKey, salt, src, enc)`: derive an Argon2 blob from
the key and salt, slice it into Threefish key / tweak / Skein-MAC key / IV,
XOR `src` with the CTR keystream, and MAC `header || salt || (dst if enc
else src)`.  Returns `(dst, skeinMac)`. -/
def threefishCTR (P : CryptoPrims) (encryptionKey salt src : List Nat) (enc : Bool) :
    List Nat × List Nat :=
  let raw := P.argon2Hash encryptionKey salt
  let t3fKey := raw.take BlockSize1024
  let t3fTweak := (raw.drop BlockSize1024).take TweakSize
  let iv := raw.drop (BlockSize1024 + TweakSize + BlockSize512)
  let dst := xorBytes src (P.threefishKeystream t3fKey t3fTweak iv src.length)
  let skeinMacKey := (raw.drop (BlockSize1024 + TweakSize)).take BlockSize512
  let skeinMac := P.skeinMAC512 skeinMacKey
    ((ENCRYPTION_HEADER ++ salt) ++ (if enc then dst else src))
  (dst, skeinMac)

/-- The `Chunk` struct.  `buffer` is the byte buffer (the claims under
verification all concern buffered chunks; a nil buffer faults in Go).
`hasherData` models the incremental keyed hasher by recording the bytes fed
to it (`none` models a nil hasher); `hash` is the cached binary hash (`[]`
when not yet computed, mirroring `len(chunk.hash) == 0`); `id` is the cached
chunk id (`""` when not yet computed). -/
structure Chunk where
  buffer : List Nat
  hasherData : Option (List Nat)
  hash : List Nat
  id : String
deriving DecidableEq, Repr

/-- The fields of `Config` the chunk codec reads. -/
structure Config where
  HashKey : List Nat
  IDKey : List Nat
  CompressionLevel : Int
deriving DecidableEq, Repr

/-- Go function `CreateChunk`: fresh chunk, no hasher, no cached hash or id. -/
def CreateChunk : Chunk := ⟨[], none, [], ""⟩

/-- Method `Chunk.Reset(hashNeeded)`: clear the buffer, install a fresh keyed
hasher when `hashNeeded`, clear the cached hash and id. -/
def Reset (hashNeeded : Bool) : Chunk :=
  ⟨[], if hashNeeded then some [] else none, [], ""⟩

/-- Method `Chunk.Write(p)`: append to the buffer and feed the hasher if present. -/
def Write (c : Chunk) (p : List Nat) : Chunk :=
  { c with buffer := c.buffer ++ p, hasherData := c.hasherData.map (· ++ p) }

/-- Method `Chunk.GetLength()` (buffered chunk). -/
def GetLength (c : Chunk) : Nat := c.buffer.length

/-- Method `Chunk.GetHash()`: finalize the hasher once, cache the binary hash.
`none` models the Go nil-pointer fault when neither a cached hash nor a
hasher is available. -/
def GetHash (P : CryptoPrims) (cfg : Config) (c : Chunk) : Option (List Nat × Chunk) :=
  if c.hash ≠ [] then some (c.hash, c)
  else
    match c.hasherData with
    | none => none
    | some d =>
      let h := P.keyedHash cfg.HashKey d
      some (h, { c with hash := h })

/-- Method `Chunk.GetID()`: lazily derive
`zbase32(pbkdf2.Key(config.IDKey, hash, 13, 64, sha512.New))` and cache it. -/
def GetID (P : CryptoPrims) (cfg : Config) (c : Chunk) : Option (String × Chunk) :=
  if c.id ≠ "" then some (c.id, c)
  else
    match (if c.hash ≠ [] then some c.hash else c.hasherData.map (P.keyedHash cfg.HashKey)) with
    | none => none
    | some h =>
      let id := P.zbase32Encode (P.pbkdf2SHA512 cfg.IDKey h 13 64)
      some (id, { c with hash := h, id := id })

/-- The effective key used by both `Encrypt` and `Decrypt`:
`pbkdf2.Key(encryptionKey, derivationKey, 100, 128, sha512.New)` when a
derivation key is given, else the encryption key itself. -/
def deriveKey (P : CryptoPrims) (encryptionKey derivationKey : List Nat) : List Nat :=
  if derivationKey ≠ [] then P.pbkdf2SHA512 encryptionKey derivationKey 100 128
  else encryptionKey

/-- Method `Chunk.Encrypt(encryptionKey, derivationKey)`.  The freshly drawn
32-byte salt is passed explicitly (it models `rand.Read(salt)`).  With an
empty key the new buffer is just the zstd-compressed plaintext; otherwise it
is `header || salt || skeinMac || ciphertext`. -/
def Encrypt (P : CryptoPrims) (cfg : Config) (salt : List Nat)
    (encryptionKey derivationKey : List Nat) (c : Chunk) : Chunk :=
  let compressed := P.zstdCompress cfg.CompressionLevel c.buffer
  if encryptionKey = [] then { c with buffer := compressed }
  else
    let key := deriveKey P encryptionKey derivationKey
    let r := threefishCTR P key salt compressed true
    { c with buffer := (ENCRYPTION_HEADER ++ salt) ++ (r.2 ++ r.1) }

/-- The error outcomes of `Chunk.Decrypt`. -/
inductive DecryptError where
  | notEnoughData (n : Nat)
  | notEncrypted
  | unsupportedVersion (v : Nat)
  | macMismatch
  | decompressFailed
deriving DecidableEq, Repr

/-- The exact Go error text for each `Decrypt` failure (the
`decompressFailed` text is produced inside the zstd library). -/
def DecryptError.message : DecryptError → String
  | .notEnoughData n => "No enough encrypted data (" ++ toString n ++ " bytes) provided"
  | .notEncrypted => "The storage doesn't seem to be encrypted"
  | .unsupportedVersion v => "Unsupported encryption version " ++ toString v
  | .macMismatch => "Unable to verify MAC"
  | .decompressFailed => "zstd decompression error"

/-- Result of `Chunk.Decrypt`: the chunk state on return, the error if any,
and the contents of the buffer handed back to the pool by the deferred
`ReleaseChunkBuffer` (after the entry swap that buffer holds the original
envelope). -/
structure DecryptResult where
  chunk : Chunk
  error : Option DecryptError
  released : List Nat
deriving DecidableEq, Repr

/-- Method `Chunk.Decrypt(encryptionKey, derivationKey)`.  The chunk swaps its
buffer for a fresh reset pool buffer at entry; with a non-empty key it
checks length, magic, version, then decrypts, recomputes and compares the
Skein MAC, and finally decompresses; with an empty key it decompresses the
whole envelope.  On success the fresh keyed hasher is fed the plaintext and
the cached hash is cleared. -/
def Decrypt (P : CryptoPrims) (cfg : Config)
    (encryptionKey derivationKey : List Nat) (c : Chunk) : DecryptResult :=
  let encryptedBuffer := c.buffer
  let c := { c with buffer := [] }
  if encryptionKey ≠ [] then
    let key := deriveKey P encryptionKey derivationKey
    let headerLength := ENCRYPTION_HEADER.length
    let offset := headerLength + 32 + BlockSize512
    if encryptedBuffer.length < offset then
      ⟨c, some (.notEnoughData encryptedBuffer.length), encryptedBuffer⟩
    else if encryptedBuffer.take (headerLength - 1) ≠ ENCRYPTION_HEADER.take (headerLength - 1) then
      ⟨c, some .notEncrypted, encryptedBuffer⟩
    else if encryptedBuffer.getD (headerLength - 1) 0 ≠ 0 then
      ⟨c, some (.unsupportedVersion (encryptedBuffer.getD (headerLength - 1) 0)), encryptedBuffer⟩
    else
      let salt := (encryptedBuffer.drop headerLength).take 32
      let chunkSkeinMac := (encryptedBuffer.drop (headerLength + 32)).take BlockSize512
      let r := threefishCTR P key salt (encryptedBuffer.drop offset) false
      if chunkSkeinMac ≠ r.2 then
        ⟨c, some .macMismatch, encryptedBuffer⟩
      else
        match P.zstdDecompress r.1 with
        | none => ⟨c, some .decompressFailed, encryptedBuffer⟩
        | some decompressed =>
          ⟨{ c with buffer := decompressed, hasherData := some decompressed, hash := [] },
            none, encryptedBuffer⟩
  else
    match P.zstdDecompress encryptedBuffer with
    | none => ⟨c, some .decompressFailed, encryptedBuffer⟩
    | some decompressed =>
      ⟨{ c with buffer := decompressed, hasherData := some decompressed, hash := [] },
        none, encryptedBuffer⟩

/-- The `init()` in the chunk file: the global `DecryptWithHMACSHA256` flag
becomes true exactly when the environment variable
`DUPLICACY_DECRYPT_WITH_HMACSHA256` is present with a value other than
`"0"`. -/
def DecryptWithHMACSHA256 (env : Option String) : Bool :=
  match env with
  | some value => value != "0"
  | none => false

/-- Modelled from the spec: the key derivation the spec claims for the
decrypt path — HMAC-SHA-256 (keyed by the derivation key, over the
encryption key) when the legacy flag is set, the normal derivation
otherwise.  Stated only to be compared against `deriveKey`, the derivation
the source actually performs. -/
def decryptKeyPerSpec (P : CryptoPrims) (flag : Bool)
    (encryptionKey derivationKey : List Nat) : List Nat :=
  if flag then P.hmacSHA256 derivationKey encryptionKey
  else deriveKey P encryptionKey derivationKey

/-! ## SIA storage backend (`duplicacy_siastorage.go`) -/

/-- One entry of the renter file listing (`api.RenterFiles`). -/
structure RenterFile where
  SiaPath : String
  Filesize : Nat
deriving DecidableEq, Repr

/-- The state `SIAStorage` methods observe: the storage directory and the
outcome of `client.Get("/renter/files", &rf)` (either a transport error or
the renter's file list). -/
structure SIAStorage where
  storageDir : String
  renterFiles : Except String (List RenterFile)

/-- Method `SIAStorage.GetFileInfo(threadIndex, filePath)`: returns
`(exist, isDir, size, err)`.  A transport error propagates; otherwise the
first renter file whose `SiaPath` equals `storageDir + "/" + filePath`
yields `(true, false, size, nil)`, and no match yields
`(false, false, 0, nil)`. -/
def GetFileInfo (s : SIAStorage) (threadIndex : Nat) (filePath : String) :
    Bool × Bool × Int × Option String :=
  match s.renterFiles with
  | .error e => (false, false, 0, some e)
  | .ok files =>
    let fPath := s.storageDir ++ "/" ++ filePath
    match files.find? (fun fi => fi.SiaPath == fPath) with
    | some fi => (true, false, (fi.Filesize : Int), none)
    | none => (false, false, 0, none)

/-- Method `SIAStorage.FindChunk(threadIndex, chunkID, isFossil)`: returns
`(filePath, exist, size, err)`, delegating to `GetFileInfo` on
`"chunks/" + chunkID` with `".fsl"` appended for fossils. -/
def FindChunk (s : SIAStorage) (threadIndex : Nat) (chunkID : String) (isFossil : Bool) :
    String × Bool × Int × Option String :=
  let filePath := "chunks/" ++ chunkID ++ (if isFossil then ".fsl" else "")
  let r := GetFileInfo s threadIndex filePath
  match r.2.2.2 with
  | some e => ("", false, 0, some e)
  | none => (filePath, r.1, r.2.2.1, none)

/-! ## Concrete primitives used by the witnesses -/

/-- A small executable instance of the primitive interface, used by the
witness theorems to evaluate the codec on concrete inputs.  It satisfies the
shape hypotheses (keystream length, 64-byte MAC, zstd round-trip) the
theorems assume of the real libraries. -/
def testPrims : CryptoPrims where
  pbkdf2SHA512 := fun p s i l => (p ++ s) ++ [i % 256, l % 256]
  argon2Hash := fun k s => (k ++ s ++ List.range 336).take 336
  threefishKeystream := fun _ _ _ n => List.replicate n 5
  skeinMAC512 := fun k m => List.replicate 64 ((k.length + m.length) % 256)
  zstdCompress := fun _ d => 0 :: d
  zstdDecompress := fun d =>
    match d with
    | 0 :: rest => some rest
    | _ => none
  keyedHash := fun k d => k ++ d
  zbase32Encode := fun d => toString d
  hmacSHA256 := fun k m => 9 :: (k ++ m)

/-- A config for the witnesses. -/
def testConfig : Config := ⟨[1, 2], [3, 4], 3⟩

/-! ## Helper lemmas -/

/-- Taking exactly the length of the left part of an append. -/
theorem take_len_append (a b : List Nat) (n : Nat) (h : a.length = n) :
    (a ++ b).take n = a := by
  subst h; exact List.take_left a b

/-- Dropping exactly the length of the left part of an append. -/
theorem drop_len_append (a b : List Nat) (n : Nat) (h : a.length = n) :
    (a ++ b).drop n = b := by
  subst h; exact List.drop_left a b

/-- XOR with the same keystream twice is the identity. -/
theorem xorBytes_cancel (src ks : List Nat) (h : ks.length = src.length) :
    xorBytes (xorBytes src ks) ks = src := by
  induction src generalizing ks with
  | nil =>
    have : ks = [] := List.length_eq_zero.mp h
    subst this; rfl
  | cons a s ih =>
    cases ks with
    | nil => simp at h
    | cons b k =>
      simp only [List.length_cons, Nat.succ.injEq] at h
      simp only [xorBytes, List.zipWith_cons_cons]
      rw [Nat.xor_cancel_right]
      exact congrArg (a :: ·) (ih k h)

/-- Length of `xorBytes`. -/
theorem length_xorBytes (a b : List Nat) : (xorBytes a b).length = min a.length b.length := by
  simp [xorBytes]

/-- Reading `getD` at exactly the length of the left part of an append. -/
theorem getD_len_append (a b : List Nat) (n : Nat) (h : a.length = n) (d : Nat) :
    (a ++ b).getD n d = b.getD 0 d := by
  subst h
  induction a with
  | nil => rfl
  | cons x xs ih => simpa using ih

/-- Length of the envelope `header || salt || mac || ct`. -/
theorem envelope_length (salt mac ct : List Nat) (hs : salt.length = 32) (hm : mac.length = 64) :
    ((ENCRYPTION_HEADER ++ salt) ++ (mac ++ ct)).length = 106 + ct.length := by
  simp [ENCRYPTION_HEADER, MAGIC9, hs, hm]
  omega

/-- The envelope starts with the nine magic bytes. -/
theorem envelope_take9 (salt mac ct : List Nat) :
    ((ENCRYPTION_HEADER ++ salt) ++ (mac ++ ct)).take 9 = MAGIC9 := by
  rw [List.append_assoc, show ENCRYPTION_HEADER = MAGIC9 ++ [0] from rfl, List.append_assoc]
  exact take_len_append _ _ _ rfl

/-- The envelope's version byte (offset 9) is 0. -/
theorem envelope_getD9 (salt mac ct : List Nat) :
    ((ENCRYPTION_HEADER ++ salt) ++ (mac ++ ct)).getD 9 0 = 0 := by
  rw [List.append_assoc, show ENCRYPTION_HEADER = MAGIC9 ++ [0] from rfl, List.append_assoc]
  rw [getD_len_append MAGIC9 ([0] ++ (salt ++ (mac ++ ct))) 9 rfl]
  rfl

/-- Dropping the 10 header bytes of the envelope. -/
theorem envelope_drop10 (salt mac ct : List Nat) :
    ((ENCRYPTION_HEADER ++ salt) ++ (mac ++ ct)).drop 10 = salt ++ (mac ++ ct) := by
  rw [List.append_assoc]
  exact drop_len_append _ _ _ rfl

/-- The salt slice of the envelope. -/
theorem envelope_salt (salt mac ct : List Nat) (hs : salt.length = 32) :
    (((ENCRYPTION_HEADER ++ salt) ++ (mac ++ ct)).drop 10).take 32 = salt := by
  rw [envelope_drop10]
  exact take_len_append _ _ _ hs

/-- Dropping header and salt of the envelope. -/
theorem envelope_drop42 (salt mac ct : List Nat) (hs : salt.length = 32) :
    ((ENCRYPTION_HEADER ++ salt) ++ (mac ++ ct)).drop 42 = mac ++ ct := by
  have h : (10 : Nat) + 32 = 42 := rfl
  rw [← h, ← List.drop_drop, envelope_drop10, drop_len_append salt (mac ++ ct) 32 hs]

/-- The stored-MAC slice of the envelope. -/
theorem envelope_mac (salt mac ct : List Nat) (hs : salt.length = 32) (hm : mac.length = 64) :
    (((ENCRYPTION_HEADER ++ salt) ++ (mac ++ ct)).drop 42).take 64 = mac := by
  rw [envelope_drop42 _ _ _ hs]
  exact take_len_append _ _ _ hm

/-- The ciphertext slice of the envelope. -/
theorem envelope_ct (salt mac ct : List Nat) (hs : salt.length = 32) (hm : mac.length = 64) :
    ((ENCRYPTION_HEADER ++ salt) ++ (mac ++ ct)).drop 106 = ct := by
  have h : (42 : Nat) + 64 = 106 := rfl
  rw [← h, ← List.drop_drop, envelope_drop42 _ _ _ hs, drop_len_append mac ct 64 hm]

/-- The ciphertext produced by `threefishCTR` has the length of its input. -/
theorem threefishCTR_fst_length (P : CryptoPrims) (key salt src : List Nat) (enc : Bool)
    (hks : ∀ k t iv n, (P.threefishKeystream k t iv n).length = n) :
    (threefishCTR P key salt src enc).1.length = src.length := by
  simp only [threefishCTR, length_xorBytes, hks, Nat.min_self]

/-- The MAC produced by `threefishCTR` is 64 bytes when the Skein primitive
always produces 64 bytes. -/
theorem threefishCTR_snd_length (P : CryptoPrims) (key salt src : List Nat) (enc : Bool)
    (hm : ∀ k m, (P.skeinMAC512 k m).length = 64) :
    (threefishCTR P key salt src enc).2.length = 64 := by
  simp only [threefishCTR]
  exact hm _ _

/-- Decrypting what `threefishCTR` encrypted restores the input, and the
decrypt-side MAC (computed over the ciphertext it was given) equals the
encrypt-side MAC (computed over the ciphertext it produced). -/
theorem threefishCTR_roundtrip (P : CryptoPrims) (key salt src : List Nat)
    (hks : ∀ k t iv n, (P.threefishKeystream k t iv n).length = n) :
    threefishCTR P key salt (threefishCTR P key salt src true).1 false
      = (src, (threefishCTR P key salt src true).2) := by
  simp only [threefishCTR, if_true, if_false]
  have hlen : (xorBytes src (P.threefishKeystream ((P.argon2Hash key salt).take BlockSize1024)
      (((P.argon2Hash key salt).drop BlockSize1024).take TweakSize)
      ((P.argon2Hash key salt).drop (BlockSize1024 + TweakSize + BlockSize512))
      src.length)).length = src.length := by
    rw [length_xorBytes, hks, Nat.min_self]
  rw [hlen]
  refine Prod.ext ?_ rfl
  exact xorBytes_cancel _ _ (hks _ _ _ _)

/-- Running `Decrypt` on the exact envelope `Encrypt` produced, with the
same keys, restores the chunk to the plaintext state. -/
theorem decrypt_encrypt_eq (P : CryptoPrims) (cfg : Config)
    (Pdata salt ek dk : List Nat) (hek : ek ≠ [])
    (hsalt : salt.length = 32)
    (hks : ∀ k t iv n, (P.threefishKeystream k t iv n).length = n)
    (hm : ∀ k m, (P.skeinMAC512 k m).length = 64)
    (hz : ∀ lvl d, P.zstdDecompress (P.zstdCompress lvl d) = some d) :
    Decrypt P cfg ek dk (Encrypt P cfg salt ek dk ⟨Pdata, some Pdata, [], ""⟩)
      = ⟨⟨Pdata, some Pdata, [], ""⟩, none,
         (Encrypt P cfg salt ek dk ⟨Pdata, some Pdata, [], ""⟩).buffer⟩ := by
  have hkey : deriveKey P ek dk = deriveKey P ek dk := rfl
  set key := deriveKey P ek dk with hkeydef
  set compressed := P.zstdCompress cfg.CompressionLevel Pdata with hcomp
  set tf := threefishCTR P key salt compressed true with htf
  have hE : Encrypt P cfg salt ek dk ⟨Pdata, some Pdata, [], ""⟩
      = ⟨(ENCRYPTION_HEADER ++ salt) ++ (tf.2 ++ tf.1), some Pdata, [], ""⟩ := by
    simp only [Encrypt, if_neg hek]
  rw [hE]
  set env := (ENCRYPTION_HEADER ++ salt) ++ (tf.2 ++ tf.1) with henv
  have hmlen : tf.2.length = 64 := threefishCTR_snd_length P key salt compressed true hm
  have h106 : ENCRYPTION_HEADER.length + 32 + BlockSize512 = 106 := rfl
  have h1 : ¬ (env.length < ENCRYPTION_HEADER.length + 32 + BlockSize512) := by
    rw [henv, envelope_length salt tf.2 tf.1 hsalt hmlen, h106]
    omega
  have h2 : env.take (ENCRYPTION_HEADER.length - 1)
      = ENCRYPTION_HEADER.take (ENCRYPTION_HEADER.length - 1) := by
    rw [show ENCRYPTION_HEADER.length - 1 = 9 from rfl, henv, envelope_take9]
    rfl
  have h3 : env.getD (ENCRYPTION_HEADER.length - 1) 0 = 0 := by
    rw [show ENCRYPTION_HEADER.length - 1 = 9 from rfl, henv]
    exact envelope_getD9 salt tf.2 tf.1
  have hsalt' : (env.drop ENCRYPTION_HEADER.length).take 32 = salt := by
    rw [show ENCRYPTION_HEADER.length = 10 from rfl, henv]
    exact envelope_salt salt tf.2 tf.1 hsalt
  have hmac' : (env.drop (ENCRYPTION_HEADER.length + 32)).take BlockSize512 = tf.2 := by
    rw [show ENCRYPTION_HEADER.length + 32 = 42 from rfl, show BlockSize512 = 64 from rfl, henv]
    exact envelope_mac salt tf.2 tf.1 hsalt hmlen
  have hct : env.drop (ENCRYPTION_HEADER.length + 32 + BlockSize512) = tf.1 := by
    rw [h106, henv]
    exact envelope_ct salt tf.2 tf.1 hsalt hmlen
  have hrt := threefishCTR_roundtrip P key salt compressed hks
  simp only [Decrypt, if_pos hek, if_neg h1, hsalt', hmac', hct]
  rw [if_neg (by rw [h2]; exact fun hc => hc rfl)]
  rw [if_neg (by rw [h3]; exact fun hc => hc rfl)]
  rw [← hkeydef]
  rw [← htf] at hrt
  rw [hrt]
  rw [if_neg (fun hc => hc rfl)]
  simp only [hcomp, hz]

/-- C1: for every plaintext `P` written into a chunk with a buffer, every
encryption key, derivation key and compression level, `Encrypt` followed by
`Decrypt` with the same keys returns no error and restores the chunk's
buffer to exactly `P`, and `GetHash()` after the `Decrypt` equals
`GetHash()` computed over `P` before the `Encrypt`.  The hypotheses state
the shape guarantees of the external libraries: the salt drawn by
`rand.Read` has 32 bytes, the CTR keystream has the requested length, Skein
MACs have 64 bytes, and zstd decompression inverts compression. -/
theorem chunk_encrypt_decrypt_roundtrip (P : CryptoPrims) (cfg : Config)
    (Pdata salt ek dk : List Nat)
    (hsalt : salt.length = 32)
    (hks : ∀ k t iv n, (P.threefishKeystream k t iv n).length = n)
    (hm : ∀ k m, (P.skeinMAC512 k m).length = 64)
    (hz : ∀ lvl d, P.zstdDecompress (P.zstdCompress lvl d) = some d) :
    (Decrypt P cfg ek dk (Encrypt P cfg salt ek dk (Write (Reset true) Pdata))).error = none ∧
    (Decrypt P cfg ek dk (Encrypt P cfg salt ek dk (Write (Reset true) Pdata))).chunk.buffer
      = Pdata ∧
    (GetHash P cfg
        (Decrypt P cfg ek dk (Encrypt P cfg salt ek dk (Write (Reset true) Pdata))).chunk).map
        Prod.fst
      = (GetHash P cfg (Write (Reset true) Pdata)).map Prod.fst := by
  have hc : Write (Reset true) Pdata = ⟨Pdata, some Pdata, [], ""⟩ := by
    simp [Write, Reset]
  rw [hc]
  by_cases hek : ek = []
  · subst hek
    have hD : Decrypt P cfg [] dk (Encrypt P cfg salt [] dk ⟨Pdata, some Pdata, [], ""⟩)
        = ⟨⟨Pdata, some Pdata, [], ""⟩, none, P.zstdCompress cfg.CompressionLevel Pdata⟩ := by
      simp [Encrypt, Decrypt, hz]
    rw [hD]
    exact ⟨rfl, rfl, rfl⟩
  · rw [decrypt_encrypt_eq P cfg Pdata salt ek dk hek hsalt hks hm hz]
    exact ⟨rfl, rfl, rfl⟩

/-- Witness for C1: concrete primitives, plaintext `[1, 2, 3]`, a 32-byte
salt, non-empty keys; the round-trip restores the buffer. -/
theorem chunk_encrypt_decrypt_roundtrip_witness :
    (List.replicate 32 4).length = 32 ∧
    (Decrypt testPrims testConfig [9] [8]
      (Encrypt testPrims testConfig (List.replicate 32 4) [9] [8]
        (Write (Reset true) [1, 2, 3]))).chunk.buffer = [1, 2, 3] :=
  ⟨by simp, (chunk_encrypt_decrypt_roundtrip testPrims testConfig [1, 2, 3]
      (List.replicate 32 4) [9] [8] (by simp)
      (fun k t iv n => by simp [testPrims])
      (fun k m => by simp [testPrims])
      (fun lvl d => rfl)).2.1⟩

/-- The envelope layout as §6 of the spec describes it: magic header and
version byte, then the 32-byte salt, then the Skein-MAC-512 keyed by bytes
144..208 of the Argon2 blob over `magic || salt || ciphertext`, then the
ciphertext, which is the compressed plaintext XORed with the Threefish-1024
CTR keystream built from bytes 0..128 (key), 128..144 (tweak) and 208..336
(IV) of the blob. -/
def specEnvelope (P : CryptoPrims) (cfg : Config) (salt ek dk plaintext : List Nat) :
    List Nat :=
  let key := deriveKey P ek dk
  let compressed := P.zstdCompress cfg.CompressionLevel plaintext
  let raw := P.argon2Hash key salt
  let ciphertext := xorBytes compressed
    (P.threefishKeystream (raw.take 128) ((raw.drop 128).take 16) (raw.drop 208)
      compressed.length)
  let mac := P.skeinMAC512 ((raw.drop 144).take 64) ((ENCRYPTION_HEADER ++ salt) ++ ciphertext)
  (ENCRYPTION_HEADER ++ salt) ++ (mac ++ ciphertext)

/-- C2: with a non-empty encryption key, `Encrypt` leaves the buffer holding
exactly the 10-byte header `"duplicacy" ++ [0x00]`, the 32-byte salt, the
64-byte Skein MAC keyed from the Argon2 blob over
`header || salt || ciphertext`, and the Threefish-1024 CTR ciphertext of the
zstd-compressed plaintext — i.e. exactly `specEnvelope`. -/
theorem encrypt_envelope_layout (P : CryptoPrims) (cfg : Config) (c : Chunk)
    (salt ek dk : List Nat) (hek : ek ≠ []) (hsalt : salt.length = 32)
    (hm : ∀ k m, (P.skeinMAC512 k m).length = 64) :
    ENCRYPTION_HEADER = ("duplicacy".data.map (fun ch => ch.toNat)) ++ [0] ∧
    ENCRYPTION_HEADER.length = 10 ∧
    (Encrypt P cfg salt ek dk c).buffer = specEnvelope P cfg salt ek dk c.buffer ∧
    ((Encrypt P cfg salt ek dk c).buffer.drop 42).take 64
      = P.skeinMAC512
          (((P.argon2Hash (deriveKey P ek dk) salt).drop 144).take 64)
          ((ENCRYPTION_HEADER ++ salt) ++
            (xorBytes (P.zstdCompress cfg.CompressionLevel c.buffer)
              (P.threefishKeystream
                ((P.argon2Hash (deriveKey P ek dk) salt).take 128)
                (((P.argon2Hash (deriveKey P ek dk) salt).drop 128).take 16)
                ((P.argon2Hash (deriveKey P ek dk) salt).drop 208)
                (P.zstdCompress cfg.CompressionLevel c.buffer).length))) := by
  refine ⟨by decide, by decide, ?_, ?_⟩
  · simp [Encrypt, threefishCTR, specEnvelope, if_neg hek,
      BlockSize1024, TweakSize, BlockSize512]
  · have hE : (Encrypt P cfg salt ek dk c).buffer = specEnvelope P cfg salt ek dk c.buffer := by
      simp [Encrypt, threefishCTR, specEnvelope, if_neg hek,
        BlockSize1024, TweakSize, BlockSize512]
    rw [hE]
    exact envelope_mac _ _ _ hsalt (hm _ _)

/-- Witness for C2: the envelope layout at a concrete chunk and keys. -/
theorem encrypt_envelope_layout_witness :
    ([9] : List Nat) ≠ [] ∧
    (Encrypt testPrims testConfig (List.replicate 32 4) [9] [8]
        ⟨[1, 2], some [1, 2], [], ""⟩).buffer
      = specEnvelope testPrims testConfig (List.replicate 32 4) [9] [8] [1, 2] :=
  ⟨by decide, (encrypt_envelope_layout testPrims testConfig ⟨[1, 2], some [1, 2], [], ""⟩
      (List.replicate 32 4) [9] [8] (by decide) (by simp)
      (fun k m => by simp [testPrims])).2.2.1⟩

/-- C7: with an empty encryption key, `Encrypt` leaves the buffer equal to
the zstd compression of the plaintext with no header, salt or MAC, and
`Decrypt` with the same empty key decompresses the whole buffer back to the
plaintext and installs a fresh keyed hasher fed with it. -/
theorem unencrypted_parity (P : CryptoPrims) (cfg : Config) (Pdata salt dk : List Nat)
    (hz : ∀ lvl d, P.zstdDecompress (P.zstdCompress lvl d) = some d) :
    (Encrypt P cfg salt [] dk (Write (Reset true) Pdata)).buffer
      = P.zstdCompress cfg.CompressionLevel Pdata ∧
    Decrypt P cfg [] dk (Encrypt P cfg salt [] dk (Write (Reset true) Pdata))
      = ⟨⟨Pdata, some Pdata, [], ""⟩, none, P.zstdCompress cfg.CompressionLevel Pdata⟩ := by
  have hc : Write (Reset true) Pdata = (⟨Pdata, some Pdata, [], ""⟩ : Chunk) := by
    simp [Write, Reset]
  rw [hc]
  constructor
  · simp [Encrypt]
  · simp [Encrypt, Decrypt, hz]

/-- Witness for C7: empty-key parity at a concrete plaintext. -/
theorem unencrypted_parity_witness :
    (Encrypt testPrims testConfig [] [] [] (Write (Reset true) [7, 7])).buffer
      = testPrims.zstdCompress testConfig.CompressionLevel [7, 7] ∧
    Decrypt testPrims testConfig [] []
        (Encrypt testPrims testConfig [] [] [] (Write (Reset true) [7, 7]))
      = ⟨⟨[7, 7], some [7, 7], [], ""⟩, none,
         testPrims.zstdCompress testConfig.CompressionLevel [7, 7]⟩ :=
  unencrypted_parity testPrims testConfig [7, 7] [] [] (fun lvl d => rfl)

/-- C3: for a chunk whose binary hash has been computed, `GetID` returns the
zbase32 encoding of `PBKDF2-HMAC-SHA512(password = config.IDKey,
salt = hash, iterations = 13, dkLen = 64)`, caches it, and a repeated call
returns the same value. -/
theorem getID_spec (P : CryptoPrims) (cfg : Config) (c : Chunk)
    (hid : c.id = "") (hh : c.hash ≠ []) :
    GetID P cfg c
      = some (P.zbase32Encode (P.pbkdf2SHA512 cfg.IDKey c.hash 13 64),
          { c with id := P.zbase32Encode (P.pbkdf2SHA512 cfg.IDKey c.hash 13 64) }) ∧
    (∀ s c', GetID P cfg c = some (s, c') → GetID P cfg c' = some (s, c')) := by
  have h1 : GetID P cfg c
      = some (P.zbase32Encode (P.pbkdf2SHA512 cfg.IDKey c.hash 13 64),
          { c with id := P.zbase32Encode (P.pbkdf2SHA512 cfg.IDKey c.hash 13 64) }) := by
    simp [GetID, hid, hh]
  refine ⟨h1, ?_⟩
  intro s c' h
  rw [h1] at h
  injection h with h
  injection h with hs hc'
  subst hs
  subst hc'
  by_cases hzb : P.zbase32Encode (P.pbkdf2SHA512 cfg.IDKey c.hash 13 64) = ""
  · simp [GetID, hzb, hid, hh]
  · simp [GetID, hzb]

/-- Witness for C3: `GetID` at a concrete chunk with a computed hash. -/
theorem getID_spec_witness :
    (⟨[1], some [1], [5, 6], ""⟩ : Chunk).id = "" ∧
    GetID testPrims testConfig ⟨[1], some [1], [5, 6], ""⟩
      = some (testPrims.zbase32Encode (testPrims.pbkdf2SHA512 testConfig.IDKey [5, 6] 13 64),
          ⟨[1], some [1], [5, 6],
            testPrims.zbase32Encode (testPrims.pbkdf2SHA512 testConfig.IDKey [5, 6] 13 64)⟩) :=
  ⟨rfl, (getID_spec testPrims testConfig ⟨[1], some [1], [5, 6], ""⟩ rfl (by decide)).1⟩

/-- C5: with a non-empty key, `Decrypt` checks, in order: buffer shorter
than `10 + 32 + 64` (not-enough-data error with the byte count), first nine
bytes differing from the magic `"duplicacy"` (not-encrypted error), and a
non-zero version byte at offset 9 (unsupported-version error carrying the
byte); each failure leaves the chunk with the fresh empty buffer, so nothing
is decrypted. -/
theorem decrypt_header_checks (P : CryptoPrims) (cfg : Config)
    (ek dk : List Nat) (c : Chunk) (hek : ek ≠ []) :
    (c.buffer.length < 106 →
      Decrypt P cfg ek dk c
        = ⟨{ c with buffer := [] }, some (.notEnoughData c.buffer.length), c.buffer⟩) ∧
    (106 ≤ c.buffer.length → c.buffer.take 9 ≠ MAGIC9 →
      Decrypt P cfg ek dk c = ⟨{ c with buffer := [] }, some .notEncrypted, c.buffer⟩) ∧
    (106 ≤ c.buffer.length → c.buffer.take 9 = MAGIC9 → c.buffer.getD 9 0 ≠ 0 →
      Decrypt P cfg ek dk c
        = ⟨{ c with buffer := [] }, some (.unsupportedVersion (c.buffer.getD 9 0)), c.buffer⟩) := by
  have h106 : ENCRYPTION_HEADER.length + 32 + BlockSize512 = 106 := rfl
  have h9 : ENCRYPTION_HEADER.length - 1 = 9 := rfl
  have hhdr9 : ENCRYPTION_HEADER.take 9 = MAGIC9 := rfl
  refine ⟨?_, ?_, ?_⟩
  · intro h
    have h1 : c.buffer.length < ENCRYPTION_HEADER.length + 32 + BlockSize512 := by
      rw [h106]; exact h
    simp only [Decrypt, if_pos hek, if_pos h1]
  · intro h hmagic
    have h1 : ¬ (c.buffer.length < ENCRYPTION_HEADER.length + 32 + BlockSize512) := by
      rw [h106]; omega
    have h2 : c.buffer.take (ENCRYPTION_HEADER.length - 1)
        ≠ ENCRYPTION_HEADER.take (ENCRYPTION_HEADER.length - 1) := by
      rw [h9, hhdr9]; exact hmagic
    simp only [Decrypt, if_pos hek, if_neg h1, if_pos h2]
  · intro h hmagic hver
    have h1 : ¬ (c.buffer.length < ENCRYPTION_HEADER.length + 32 + BlockSize512) := by
      rw [h106]; omega
    have h2 : ¬ (c.buffer.take 9 ≠ ENCRYPTION_HEADER.take 9) := by
      rw [hhdr9]; exact fun hc => hc hmagic
    simp only [Decrypt, if_pos hek, if_neg h1, h9]
    rw [if_neg h2, if_pos hver]

/-- Witness for C5: a 106-byte buffer with correct magic but version byte 1
is rejected as an unsupported version. -/
theorem decrypt_header_checks_witness :
    ([9] : List Nat) ≠ [] ∧
    (106 ≤ (MAGIC9 ++ (1 :: List.replicate 96 0)).length →
      (MAGIC9 ++ (1 :: List.replicate 96 0)).take 9 = MAGIC9 →
      (MAGIC9 ++ (1 :: List.replicate 96 0)).getD 9 0 ≠ 0 →
      Decrypt testPrims testConfig [9] []
          ⟨MAGIC9 ++ (1 :: List.replicate 96 0), none, [], ""⟩
        = ⟨⟨[], none, [], ""⟩,
           some (.unsupportedVersion ((MAGIC9 ++ (1 :: List.replicate 96 0)).getD 9 0)),
           MAGIC9 ++ (1 :: List.replicate 96 0)⟩) :=
  ⟨by decide, (decrypt_header_checks testPrims testConfig [9] []
      ⟨MAGIC9 ++ (1 :: List.replicate 96 0), none, [], ""⟩ (by decide)).2.2⟩

/-- C6: with a non-empty key and a well-formed header, `Decrypt` recomputes
the Skein MAC over `header || salt || ciphertext` with the MAC key sliced
from the Argon2 blob of the derived key and the envelope's salt, and
compares it against the stored MAC at bytes 42..106; on any difference it
returns the MAC error and the chunk keeps the fresh empty buffer, so the
ciphertext is never decompressed into the chunk.  This theorem states the
functional content of the check only.  The source performs the comparison
with `bytes.Compare(chunkSkeinMac, skeinMac) != 0`, a short-circuiting
lexicographic comparison that returns at the first differing byte — not the
constant-time comparison the spec prescribes (a constant-time primitive
would be `hmac.Equal` or `subtle.ConstantTimeCompare`).  The timing of the
comparison is outside this functional embedding; only its reject-iff-bytes-
differ behaviour is captured here. -/
theorem decrypt_mac_mismatch (P : CryptoPrims) (cfg : Config)
    (ek dk : List Nat) (c : Chunk) (hek : ek ≠ [])
    (hlen : 106 ≤ c.buffer.length) (hmagic : c.buffer.take 9 = MAGIC9)
    (hver : c.buffer.getD 9 0 = 0)
    (hmm : (c.buffer.drop 42).take 64
      ≠ P.skeinMAC512
          (((P.argon2Hash (deriveKey P ek dk) ((c.buffer.drop 10).take 32)).drop 144).take 64)
          ((ENCRYPTION_HEADER ++ (c.buffer.drop 10).take 32) ++ c.buffer.drop 106)) :
    Decrypt P cfg ek dk c = ⟨{ c with buffer := [] }, some .macMismatch, c.buffer⟩ := by
  have h106 : ENCRYPTION_HEADER.length + 32 + BlockSize512 = 106 := rfl
  have h9 : ENCRYPTION_HEADER.length - 1 = 9 := rfl
  have hhdr9 : ENCRYPTION_HEADER.take 9 = MAGIC9 := rfl
  have h1 : ¬ (c.buffer.length < ENCRYPTION_HEADER.length + 32 + BlockSize512) := by
    rw [h106]; omega
  have h2 : ¬ (c.buffer.take (ENCRYPTION_HEADER.length - 1)
      ≠ ENCRYPTION_HEADER.take (ENCRYPTION_HEADER.length - 1)) := by
    rw [h9, hhdr9]; exact fun hc => hc hmagic
  have h3 : ¬ (c.buffer.getD (ENCRYPTION_HEADER.length - 1) 0 ≠ 0) := by
    rw [h9]; exact fun hc => hc hver
  have hmac2 : (threefishCTR P (deriveKey P ek dk)
      ((c.buffer.drop ENCRYPTION_HEADER.length).take 32)
      (c.buffer.drop (ENCRYPTION_HEADER.length + 32 + BlockSize512)) false).2
      = P.skeinMAC512
          (((P.argon2Hash (deriveKey P ek dk) ((c.buffer.drop 10).take 32)).drop 144).take 64)
          ((ENCRYPTION_HEADER ++ (c.buffer.drop 10).take 32) ++ c.buffer.drop 106) := by
    simp [threefishCTR, BlockSize1024, TweakSize, BlockSize512,
      show ENCRYPTION_HEADER.length = 10 from rfl]
  have h4 : (c.buffer.drop (ENCRYPTION_HEADER.length + 32)).take BlockSize512
      ≠ (threefishCTR P (deriveKey P ek dk)
          ((c.buffer.drop ENCRYPTION_HEADER.length).take 32)
          (c.buffer.drop (ENCRYPTION_HEADER.length + 32 + BlockSize512)) false).2 := by
    rw [hmac2]
    exact hmm
  simp only [Decrypt, if_pos hek, if_neg h1, if_neg h2, if_neg h3, if_pos h4]

/-- Witness for C6: a well-formed 106-byte envelope whose stored MAC is all
ones is rejected with the MAC error. -/
theorem decrypt_mac_mismatch_witness :
    ([9] : List Nat) ≠ [] ∧
    Decrypt testPrims testConfig [9] []
        ⟨(ENCRYPTION_HEADER ++ List.replicate 32 0) ++ List.replicate 64 1, none, [], ""⟩
      = ⟨⟨[], none, [], ""⟩, some .macMismatch,
         (ENCRYPTION_HEADER ++ List.replicate 32 0) ++ List.replicate 64 1⟩ :=
  ⟨by decide, decrypt_mac_mismatch testPrims testConfig [9] []
      ⟨(ENCRYPTION_HEADER ++ List.replicate 32 0) ++ List.replicate 64 1, none, [], ""⟩
      (by decide) (by decide) (by decide) (by decide) (by decide)⟩

/-- On every path `Decrypt` hands the original buffer contents back to the pool. -/
theorem decrypt_released (P : CryptoPrims) (cfg : Config)
    (ek dk : List Nat) (c : Chunk) :
    (Decrypt P cfg ek dk c).released = c.buffer := by
  simp only [Decrypt]
  repeat' split
  all_goals rfl

/-- Either `Decrypt` succeeds or it leaves the chunk with the fresh empty
buffer. -/
theorem decrypt_cases (P : CryptoPrims) (cfg : Config)
    (ek dk : List Nat) (c : Chunk) :
    (Decrypt P cfg ek dk c).error = none ∨ (Decrypt P cfg ek dk c).chunk.buffer = [] := by
  simp only [Decrypt]
  repeat' split
  all_goals simp

/-- C9: whenever `Decrypt` with a non-empty key fails (length, magic,
version, MAC, or decompression), the chunk no longer holds the envelope: it
holds the freshly reset pool buffer, so `GetLength` is 0, and the buffer
that held the envelope was handed back to the pool. -/
theorem decrypt_error_clears_buffer (P : CryptoPrims) (cfg : Config)
    (ek dk : List Nat) (c : Chunk) (e : DecryptError) (hek : ek ≠ [])
    (herr : (Decrypt P cfg ek dk c).error = some e) :
    GetLength (Decrypt P cfg ek dk c).chunk = 0 ∧
    (Decrypt P cfg ek dk c).released = c.buffer := by
  refine ⟨?_, decrypt_released P cfg ek dk c⟩
  rcases decrypt_cases P cfg ek dk c with h | h
  · rw [herr] at h
    exact absurd h (by simp)
  · rw [GetLength, h]
    rfl

/-- Witness for C9: a too-short envelope fails and leaves a zero-length
chunk, with the envelope released. -/
theorem decrypt_error_clears_buffer_witness :
    ([9] : List Nat) ≠ [] ∧
    (Decrypt testPrims testConfig [9] [] ⟨[1, 2, 3], none, [], ""⟩).error
      = some (.notEnoughData 3) ∧
    GetLength (Decrypt testPrims testConfig [9] [] ⟨[1, 2, 3], none, [], ""⟩).chunk = 0 ∧
    (Decrypt testPrims testConfig [9] [] ⟨[1, 2, 3], none, [], ""⟩).released = [1, 2, 3] := by
  refine ⟨by decide, by decide, ?_⟩
  exact decrypt_error_clears_buffer testPrims testConfig [9] [] ⟨[1, 2, 3], none, [], ""⟩
    (.notEnoughData 3) (by decide) (by decide)

/-- C4 counterexample: with `DUPLICACY_DECRYPT_WITH_HMACSHA256` set to
`"1"` the flag is true, yet the key `Decrypt` derives (`deriveKey`, the
derivation the source performs) is not the HMAC-SHA-256 derivation the
claim asserts for that environment: the source's `Decrypt` never consults
the flag. -/
theorem decrypt_hmac_flag_cex :
    DecryptWithHMACSHA256 (some "1") = true ∧
    deriveKey testPrims [7] [8]
      ≠ decryptKeyPerSpec testPrims (DecryptWithHMACSHA256 (some "1")) [7] [8] := by
  refine ⟨rfl, ?_⟩
  decide

/-- C4 amended: the environment variable sets the global
`DecryptWithHMACSHA256` flag at startup (true exactly when it is present
with a value other than `"0"`), but `Decrypt` never consults the flag: its
key derivation is always the normal one — PBKDF2-SHA512 of the encryption
key with the derivation key when the latter is non-empty, the encryption
key itself otherwise — i.e. always the flag-false case of the spec's
description. -/
theorem decrypt_hmac_flag_amended (env : Option String) (P : CryptoPrims)
    (ek dk : List Nat) :
    (DecryptWithHMACSHA256 env = true ↔ ∃ v, env = some v ∧ v ≠ "0") ∧
    deriveKey P ek dk = decryptKeyPerSpec P false ek dk ∧
    deriveKey P ek dk
      = (if dk ≠ [] then P.pbkdf2SHA512 ek dk 100 128 else ek) := by
  refine ⟨?_, rfl, rfl⟩
  cases env with
  | none => simp [DecryptWithHMACSHA256]
  | some v =>
    simp only [DecryptWithHMACSHA256, bne_iff_ne]
    constructor
    · intro h
      exact ⟨v, rfl, h⟩
    · rintro ⟨w, hw, hne⟩
      injection hw with hw
      subst hw
      exact hne

/-! ## SIA storage theorems -/

/-- Helper: `FindChunk` delegates to `GetFileInfo` on the chunk path: error case and
success case. -/
theorem findChunk_delegates (s : SIAStorage) (t : Nat) (id : String) (f : Bool) :
    (∀ e, (GetFileInfo s t ("chunks/" ++ id ++ (if f then ".fsl" else ""))).2.2.2 = some e →
      FindChunk s t id f = ("", false, 0, some e)) ∧
    ((GetFileInfo s t ("chunks/" ++ id ++ (if f then ".fsl" else ""))).2.2.2 = none →
      FindChunk s t id f
        = ("chunks/" ++ id ++ (if f then ".fsl" else ""),
           (GetFileInfo s t ("chunks/" ++ id ++ (if f then ".fsl" else ""))).1,
           (GetFileInfo s t ("chunks/" ++ id ++ (if f then ".fsl" else ""))).2.2.1, none)) := by
  constructor
  · intro e he
    simp only [FindChunk, he]
  · intro hn
    simp only [FindChunk, hn]

/-- C8: `FindChunk` is exactly the `GetFileInfo` wrapper on
`"chunks/" + id` (with `".fsl"` appended for fossils): it returns that path
with the existence and size `GetFileInfo` reports, and propagates exactly
`GetFileInfo`'s error. -/
theorem findChunk_wrapper (s : SIAStorage) (t : Nat) (id : String) (f : Bool) :
    (∀ e, (GetFileInfo s t ("chunks/" ++ id ++ (if f then ".fsl" else ""))).2.2.2 = some e →
      FindChunk s t id f = ("", false, 0, some e)) ∧
    ((GetFileInfo s t ("chunks/" ++ id ++ (if f then ".fsl" else ""))).2.2.2 = none →
      FindChunk s t id f
        = ("chunks/" ++ id ++ (if f then ".fsl" else ""),
           (GetFileInfo s t ("chunks/" ++ id ++ (if f then ".fsl" else ""))).1,
           (GetFileInfo s t ("chunks/" ++ id ++ (if f then ".fsl" else ""))).2.2.1, none)) :=
  findChunk_delegates s t id f

/-- A concrete SIA storage state used by the witnesses: one uploaded chunk
file. -/
def siaExample : SIAStorage :=
  ⟨"root", .ok [⟨"root/chunks/abc", 5⟩]⟩

/-- Witness for C8: `FindChunk` finds the uploaded chunk with its size. -/
theorem findChunk_wrapper_witness :
    (GetFileInfo siaExample 0 "chunks/abc").2.2.2 = none ∧
    FindChunk siaExample 0 "abc" false = ("chunks/abc", true, 5, none) := by
  refine ⟨rfl, ?_⟩
  have h := (findChunk_wrapper siaExample 0 "abc" false).2 rfl
  exact h.trans (by decide)

/-- C10: `GetFileInfo` never reports a directory; when the listing succeeds
and no renter file matches `storageDir + "/" + path` it returns
`(false, false, 0, nil)`; consequently `FindChunk` reports a missing chunk
as non-existent with no error. -/
theorem getFileInfo_no_directories (s : SIAStorage) (t : Nat) (p : String) :
    (GetFileInfo s t p).2.1 = false ∧
    (∀ files, s.renterFiles = .ok files →
      (∀ fi ∈ files, fi.SiaPath ≠ s.storageDir ++ "/" ++ p) →
      GetFileInfo s t p = (false, false, 0, none)) ∧
    (∀ files (id : String) (f : Bool), s.renterFiles = .ok files →
      (∀ fi ∈ files,
        fi.SiaPath ≠ s.storageDir ++ "/" ++ ("chunks/" ++ id ++ (if f then ".fsl" else ""))) →
      FindChunk s t id f
        = ("chunks/" ++ id ++ (if f then ".fsl" else ""), false, 0, none)) := by
  have key : ∀ (q : String) (files : List RenterFile), s.renterFiles = .ok files →
      (∀ fi ∈ files, fi.SiaPath ≠ s.storageDir ++ "/" ++ q) →
      GetFileInfo s t q = (false, false, 0, none) := by
    intro q files hok hnone
    have hfind : files.find? (fun fi => fi.SiaPath == s.storageDir ++ "/" ++ q) = none := by
      rw [List.find?_eq_none]
      intro x hx
      simpa using hnone x hx
    simp [GetFileInfo, hok, hfind]
  refine ⟨?_, fun files hok hn => key p files hok hn, ?_⟩
  · rcases hrf : s.renterFiles with e | files
    · simp [GetFileInfo, hrf]
    · rcases hf : files.find? (fun fi => fi.SiaPath == s.storageDir ++ "/" ++ p) with _ | fi
      · simp [GetFileInfo, hrf, hf]
      · simp [GetFileInfo, hrf, hf]
  · intro files id f hok hnone
    have hg := key ("chunks/" ++ id ++ (if f then ".fsl" else "")) files hok hnone
    have hn : (GetFileInfo s t ("chunks/" ++ id ++ (if f then ".fsl" else ""))).2.2.2
        = none := by
      rw [hg]
    have h := (findChunk_delegates s t id f).2 hn
    rw [h, hg]

/-- Witness for C10: a chunk id absent from the listing is reported as
non-existent with no error. -/
theorem getFileInfo_no_directories_witness :
    siaExample.renterFiles = .ok [⟨"root/chunks/abc", 5⟩] ∧
    (∀ fi ∈ [(⟨"root/chunks/abc", 5⟩ : RenterFile)],
      fi.SiaPath ≠ siaExample.storageDir ++ "/" ++ ("chunks/" ++ "missing" ++ (if false then ".fsl" else ""))) ∧
    FindChunk siaExample 0 "missing" false
      = ("chunks/" ++ "missing" ++ (if false then ".fsl" else ""), false, 0, none) := by
  refine ⟨rfl, by decide, ?_⟩
  exact (getFileInfo_no_directories siaExample 0 "unused").2.2
    [⟨"root/chunks/abc", 5⟩] "missing" false rfl (by decide)

end Duplicacy
